import Mathlib

/-!
Verification of the trigger evaluation subsystem of the rolling-file appender:
the client-signalled trigger (`ClientTrigger`) and the calendar-scheduled
daily trigger (`DailyTrigger`).

The Rust source keeps each trigger's mutable state in a single atomic cell;
here the state is passed explicitly and each operation returns the new state.
Machine integers (`i64` instants, `u32` configuration values) are modelled as
`Int` and `Nat`; none of the arithmetic in the source can overflow in the
ranges the claims are about (the `u32` wraparound at `2 ^ 32` is not modelled).
Operations that can `panic!` or `.expect` in the source are modelled as
`Option` (construction) or with an explicit `panicked` outcome (evaluation).
-/

/-! ## ClientTrigger (client.rs)

The state is the single atomic boolean `latch`. `trigger` is
`latch.swap(false, AcqRel)` wrapped in `Ok`: it returns the previous value
and leaves the latch `false`. `rotate_on_next_append` is
`latch.swap(true, AcqRel)` with the previous value discarded.
-/

/-- Model of `ClientTrigger::trigger`: returns the pair of the value the call
returns (always wrapped in `Ok` in the source; the function cannot fail) and
the latch value after the call. -/
def ClientTrigger.trigger (latch : Bool) : Bool × Bool :=
  (latch, false)

/-- Model of `ClientTrigger::rotate_on_next_append`: the latch value after the
call (the swapped-out previous value is discarded by the source). -/
def ClientTrigger.rotateOnNextAppend (_latch : Bool) : Bool :=
  true

/-- Calls a client can make on a `ClientTrigger`. -/
inductive ClientOp
  | arm
  | evaluate
deriving DecidableEq, Repr

/-- Runs a sequence of calls against a `ClientTrigger`, returning the final
latch value and the list of values returned by the `evaluate` calls, in
order. -/
def runClient : Bool → List ClientOp → Bool × List Bool
  | s, [] => (s, [])
  | s, .arm :: rest => runClient (ClientTrigger.rotateOnNextAppend s) rest
  | s, .evaluate :: rest =>
      let r := ClientTrigger.trigger s
      let p := runClient r.2 rest
      (p.1, r.1 :: p.2)

/-- Claim C1: `ClientTrigger` is a test-and-clear latch: `evaluate()` returns
the latch's previous value and leaves the latch `false`; `arm()`
(`rotate_on_next_append`) sets the latch `true`; and from any state, any
positive number of consecutive `arm()` calls followed by two `evaluate()`
calls yields `true` from the first `evaluate()` and `false` from the second,
so consecutive `arm()` calls coalesce into exactly one `true` result. -/
theorem c1_client_latch :
    (∀ s : Bool, ClientTrigger.trigger s = (s, false)) ∧
    (∀ s : Bool, ClientTrigger.rotateOnNextAppend s = true) ∧
    (∀ (s : Bool) (n : Nat),
      runClient s (List.replicate (n + 1) ClientOp.arm ++
        [ClientOp.evaluate, ClientOp.evaluate]) = (false, [true, false])) := by
  refine ⟨fun s => rfl, fun s => rfl, fun s n => ?_⟩
  induction n generalizing s with
  | zero => rfl
  | succ k ih =>
      rw [List.replicate_succ]
      exact ih true

/-! ## Calendar and timezone model (for daily.rs)

The daily trigger works with `chrono` local date/times. A naive (civil) local
date/time is modelled as an `Int`: the number of seconds shown on the local
wall clock since the local civil instant 1970-01-01T00:00:00 (`chrono`'s
`NaiveDateTime` at second precision; sub-second precision never influences
the source's computations, which end in whole-second `timestamp()` calls).
An absolute instant is likewise an `Int` of epoch seconds.

The `Local` timezone is modelled as a standard offset, a DST offset, and a
predicate saying at which instants DST is in effect; a fixed-offset zone is
the special case of equal offsets. Converting an instant to local civil time
adds the offset in effect at that instant. Converting a civil time back to an
instant follows `chrono`'s `from_local_datetime`: each of the two possible
offsets yields a candidate instant, and the candidates that round-trip decide
between a unique instant, a fall-back ambiguity (two instants, earliest
first) and a spring-forward gap (no instant). The `NaiveDate` range limit of
`chrono` (about plus or minus 262000 years) is not modelled: all arithmetic
is exact on `Int`, so the range-overflow failure paths of the source are
unreachable in the model, while the gap/ambiguity failure paths are kept.
-/

/-- Result of resolving a local civil time to absolute instants, mirroring
`chrono::LocalResult`: no instant (spring-forward gap), a unique instant, or
two instants (fall-back overlap, earliest first). -/
inductive LocalResult (α : Type)
  | lnone
  | single (t : α)
  | ambiguous (t₁ t₂ : α)
deriving DecidableEq, Repr

/-- Model of `chrono::LocalResult::single`: the unique instant, if any. -/
def LocalResult.asSingle : LocalResult α → Option α
  | .single t => some t
  | _ => none

/-- A timezone: a standard UTC offset, a DST UTC offset (both in seconds) and
the set of instants at which DST is in effect. A fixed-offset zone has equal
offsets. -/
structure Tz where
  stdOffset : Int
  dstOffset : Int
  isDst : Int → Bool

/-- UTC offset (seconds) in effect at a given instant. -/
def Tz.offsetAt (tz : Tz) (t : Int) : Int :=
  if tz.isDst t then tz.dstOffset else tz.stdOffset

/-- Local civil time (in local seconds) of an instant. -/
def toLocal (tz : Tz) (t : Int) : Int :=
  t + tz.offsetAt t

/-- Model of `chrono`'s `from_local_datetime`: resolve a local civil time to
the instants that display it. -/
def fromLocal (tz : Tz) (L : Int) : LocalResult Int :=
  let c₁ := L - tz.stdOffset
  let c₂ := L - tz.dstOffset
  if c₁ = c₂ then
    if toLocal tz c₁ = L then .single c₁ else .lnone
  else if toLocal tz c₁ = L ∧ toLocal tz c₂ = L then .ambiguous (min c₁ c₂) (max c₁ c₂)
  else if toLocal tz c₁ = L then .single c₁
  else if toLocal tz c₂ = L then .single c₂
  else .lnone

/-- Day number (days since 1970-01-01) of a local civil time. -/
def civilDay (L : Int) : Int :=
  L / 86400

/-- Seconds elapsed since local midnight of a local civil time (the
`NaiveTime` component). -/
def secondsOfDay (L : Int) : Int :=
  L % 86400

/-- Hour component of a local civil time. -/
def hourOf (L : Int) : Int :=
  secondsOfDay L / 3600

/-- Minute component of a local civil time. -/
def minuteOf (L : Int) : Int :=
  secondsOfDay L % 3600 / 60

/-- Second component of a local civil time. -/
def secondOf (L : Int) : Int :=
  L % 60

/-- Weekday of a local civil time as `chrono`'s
`Weekday::num_days_from_sunday` (0 = Sunday): 1970-01-01 was a Thursday
(= 4). -/
def weekdayNat (L : Int) : Nat :=
  ((civilDay L + 4) % 7).toNat

/-- Civil time with the hour component replaced (`NaiveDateTime::with_hour`,
component set only; validity of the hour is checked by the caller). -/
def setHour (L h : Int) : Int :=
  civilDay L * 86400 + h * 3600 + minuteOf L * 60 + secondOf L

/-- Civil time with the minute component replaced. -/
def setMinute (L m : Int) : Int :=
  civilDay L * 86400 + hourOf L * 3600 + m * 60 + secondOf L

/-- Civil time with the second component replaced. -/
def setSecond (L s : Int) : Int :=
  civilDay L * 86400 + hourOf L * 3600 + minuteOf L * 60 + s

/-- Model of `DateTime::checked_add_days`: zero days returns the instant
unchanged; otherwise the days are added to the local civil time (calendar
addition: the local time-of-day is kept) and the result is resolved to a
unique instant, `none` when the resolution is a gap or an ambiguity. -/
def checkedAddDays (tz : Tz) (t : Int) (days : Nat) : Option Int :=
  if days = 0 then some t
  else (fromLocal tz (toLocal tz t + (days : Int) * 86400)).asSingle

/-- Model of `Timelike::with_hour` on a `DateTime`: replace the hour of the
local civil time (hours at or above 24 are rejected, as by
`NaiveDateTime::with_hour`) and resolve to a unique instant. -/
def withHour (tz : Tz) (t : Int) (h : Nat) : Option Int :=
  if h ≤ 23 then (fromLocal tz (setHour (toLocal tz t) h)).asSingle else none

/-- Model of `Timelike::with_minute` on a `DateTime`. -/
def withMinute (tz : Tz) (t : Int) (m : Nat) : Option Int :=
  if m ≤ 59 then (fromLocal tz (setMinute (toLocal tz t) m)).asSingle else none

/-- Model of `Timelike::with_second` on a `DateTime`. -/
def withSecond (tz : Tz) (t : Int) (s : Nat) : Option Int :=
  if s ≤ 59 then (fromLocal tz (setSecond (toLocal tz t) s)).asSingle else none

/-- Model of `TimeZone::timestamp_opt(secs, 0)`: an epoch timestamp denotes a
unique absolute instant, so its local datetime is always unique (the
`Ambiguous` and `None` arms the source matches on can arise in `chrono` only
outside the supported `NaiveDate` range, which is not modelled). -/
def timestampOpt (_tz : Tz) (t : Int) : LocalResult Int :=
  .single t

/-- A fixed-offset timezone (no DST). -/
def tzFixed (off : Int) : Tz :=
  ⟨off, off, fun _ => false⟩

/-- A timezone with one spring-forward transition: offset 0 before instant
86400, offset +3600 from instant 86400 on. Local civil times in
`[86400, 90000)` do not exist in this zone. -/
def tzSpring : Tz :=
  ⟨0, 3600, fun t => decide (86400 ≤ t)⟩

/-! ## DailyTrigger (daily.rs) -/

/-- Model of `NaiveTime::from_hms_opt(h, m, s)`: a `NaiveTime` is its
seconds-of-day value; out-of-range components are rejected. -/
def fromHmsOpt (h m s : Nat) : Option Nat :=
  if h ≤ 23 ∧ m ≤ 59 ∧ s ≤ 59 then some (h * 3600 + m * 60 + s) else none

/-- State of a `DailyTrigger`: the atomic `next_seconds` cell and the three
immutable configuration fields (`time_of_day` is the stored `NaiveTime`,
kept as its seconds-of-day value). -/
structure DailyTrigger where
  next_seconds : Int
  time_of_day : Nat
  skip_days : Nat
  start_day_of_week : Nat
deriving DecidableEq, Repr

/-- The `days_into_cycle` computation of `DailyTrigger::first_trigger_point`:
the offset of the current weekday from `start_day_of_week` (adding 7 first
when the current weekday index is smaller), modulo `skip_days + 1`. -/
def daysIntoCycleOf (nowDayOfWeek startDayOfWeek skipDays : Nat) : Nat :=
  if startDayOfWeek ≤ nowDayOfWeek then
    (nowDayOfWeek - startDayOfWeek) % (skipDays + 1)
  else
    (nowDayOfWeek + 7 - startDayOfWeek) % (skipDays + 1)

/-- Model of `DailyTrigger::first_trigger_point`, for a given current instant
`now` in timezone `tz` (the source reads `Local::now()`); the configuration
fields are passed in place of `self`. Returns `none` where the source would
panic through one of its `expect` calls. -/
def firstTriggerPoint (tz : Tz) (timeOfDay skipDays startDayOfWeek : Nat)
    (now : Int) : Option Int :=
  let nowLocal := toLocal tz now
  let nowTime := secondsOfDay nowLocal
  let nowDayOfWeek := weekdayNat nowLocal
  let daysIntoCycle := daysIntoCycleOf nowDayOfWeek startDayOfWeek skipDays
  let daysLeftInCycle := (skipDays + 1) - daysIntoCycle
  let triggerPoint : Option Int :=
    if nowTime < (timeOfDay : Int) ∧ daysIntoCycle = 0 then some now
    else checkedAddDays tz now daysLeftInCycle
  (((triggerPoint.bind fun t => withHour tz t (timeOfDay / 3600)).bind
      fun t => withMinute tz t (timeOfDay % 3600 / 60)).bind
    fun t => withSecond tz t 0)

/-- Model of `DailyTrigger::new`: normalize `time_of_day` into hours and
minutes, build the `NaiveTime` (`none` where the source's `expect` panics,
which happens when the normalized hour reaches 24), take
`start_day_of_week` mod 7, and store the first trigger point. -/
def DailyTrigger.new (tz : Tz) (now : Int)
    (timeOfDay skipDays startDayOfWeek : Nat) : Option DailyTrigger :=
  let hours := timeOfDay / 100 % 24 + timeOfDay % 100 / 60
  let minutes := timeOfDay % 100 % 60
  (fromHmsOpt hours minutes 0).bind fun tod =>
    let sdw := startDayOfWeek % 7
    (firstTriggerPoint tz tod skipDays sdw now).map fun fp =>
      ⟨fp, tod, skipDays, sdw⟩

/-- Outcome of one `DailyTrigger::trigger` call: `Ok(rotate)` together with
the state after the call, or a panic (the source's `panic!` or `expect`).
The source never constructs the `Err` variant of its `anyhow::Result`. -/
inductive EvalResult
  | ok (rotate : Bool) (st : DailyTrigger)
  | panicked
deriving DecidableEq, Repr

/-- Model of `DailyTrigger::trigger` (the `Trigger` impl), for a given
current instant `now`: compare `now` against the loaded `next_seconds`; when
due, reconstruct the local datetime of the stored threshold, add
`skip_days + 1` calendar days and store the result. -/
def DailyTrigger.trigger (tz : Tz) (st : DailyTrigger) (now : Int) : EvalResult :=
  if now < st.next_seconds then .ok false st
  else
    let last? : Option Int :=
      match timestampOpt tz st.next_seconds with
      | .single ts => some ts
      | .ambiguous ts₁ _ => some ts₁
      | .lnone => none
    match last? with
    | none => .panicked
    | some last =>
        match checkedAddDays tz last (st.skip_days + 1) with
        | none => .panicked
        | some next => .ok true ⟨next, st.time_of_day, st.skip_days, st.start_day_of_week⟩

/-- Runs a sequence of `trigger` calls at the given instants, returning the
final state and the returned booleans; `none` if any call panics. -/
def runTrigger (tz : Tz) : DailyTrigger → List Int → Option (DailyTrigger × List Bool)
  | st, [] => some (st, [])
  | st, now :: rest =>
      match DailyTrigger.trigger tz st now with
      | .ok b st' => (runTrigger tz st' rest).map fun p => (p.1, b :: p.2)
      | .panicked => none

/-! ## Supporting lemmas about the calendar model -/

/-- An instant produced by a unique local-time resolution displays exactly
the resolved civil time. -/
theorem fromLocal_single {tz : Tz} {L t : Int}
    (h : fromLocal tz L = .single t) : toLocal tz t = L := by
  simp only [fromLocal] at h
  split_ifs at h with h₁ h₂ h₃ h₄ h₅ <;> simp_all

/-- Unfolding of `LocalResult.asSingle` succeeding. -/
theorem asSingle_eq_some {r : LocalResult α} {t : α}
    (h : r.asSingle = some t) : r = .single t := by
  cases r <;> simp_all [LocalResult.asSingle]

/-- A successful calendar-day addition shifts the local civil time by exactly
the requested number of days, keeping the local time-of-day. -/
theorem checkedAddDays_some {tz : Tz} {t t' : Int} {days : Nat}
    (h : checkedAddDays tz t days = some t') :
    toLocal tz t' = toLocal tz t + (days : Int) * 86400 := by
  simp only [checkedAddDays] at h
  split_ifs at h with h₀
  · subst h₀
    simp_all
  · exact fromLocal_single (asSingle_eq_some h)

/-- A successful `with_hour` resolves to an instant displaying the civil time
with the hour replaced. -/
theorem withHour_eq_some {tz : Tz} {t t' : Int} {h : Nat}
    (hs : withHour tz t h = some t') :
    h ≤ 23 ∧ fromLocal tz (setHour (toLocal tz t) h) = .single t' := by
  simp only [withHour] at hs
  split_ifs at hs with h₁
  · exact ⟨h₁, asSingle_eq_some hs⟩

/-- A successful `with_minute` resolves to an instant displaying the civil
time with the minute replaced. -/
theorem withMinute_eq_some {tz : Tz} {t t' : Int} {m : Nat}
    (hs : withMinute tz t m = some t') :
    m ≤ 59 ∧ fromLocal tz (setMinute (toLocal tz t) m) = .single t' := by
  simp only [withMinute] at hs
  split_ifs at hs with h₁
  · exact ⟨h₁, asSingle_eq_some hs⟩

/-- A successful `with_second` resolves to an instant displaying the civil
time with the second replaced. -/
theorem withSecond_eq_some {tz : Tz} {t t' : Int} {s : Nat}
    (hs : withSecond tz t s = some t') :
    s ≤ 59 ∧ fromLocal tz (setSecond (toLocal tz t) s) = .single t' := by
  simp only [withSecond] at hs
  split_ifs at hs with h₁
  · exact ⟨h₁, asSingle_eq_some hs⟩

/-- Setting hour, then minute, then second 0 produces the civil time at that
hour and minute on the same civil day. -/
theorem setChain (L h m : Int) :
    setSecond (setMinute (setHour L h) m) 0 =
      civilDay L * 86400 + h * 3600 + m * 60 := by
  simp only [setSecond, setMinute, setHour, civilDay, secondsOfDay, hourOf,
    minuteOf, secondOf]
  omega

/-- Shifting a civil time by whole days changes the day number by that count
and keeps the time-of-day. -/
theorem civilDay_shift (L k : Int) :
    civilDay (L + k * 86400) = civilDay L + k ∧
      secondsOfDay (L + k * 86400) = secondsOfDay L := by
  simp only [civilDay, secondsOfDay]
  omega

/-- Day number and time-of-day of a civil time built from a day number, an
hour and a minute. -/
theorem civilDay_build (D h m : Int) (hh₀ : 0 ≤ h) (hh : h ≤ 23)
    (hm₀ : 0 ≤ m) (hm : m ≤ 59) :
    civilDay (D * 86400 + h * 3600 + m * 60) = D ∧
      secondsOfDay (D * 86400 + h * 3600 + m * 60) = h * 3600 + m * 60 := by
  simp only [civilDay, secondsOfDay]
  omega

/-! ## Step lemmas about `DailyTrigger::trigger` -/

/-- Before the stored threshold, `trigger` is the fast path: `Ok(false)` and
no state change. -/
theorem trigger_not_due {tz : Tz} {st : DailyTrigger} {now : Int}
    (h : now < st.next_seconds) :
    DailyTrigger.trigger tz st now = .ok false st := by
  simp [DailyTrigger.trigger, h]

/-- At or after the stored threshold, a successful calendar addition makes
`trigger` return `Ok(true)` and store the advanced threshold. -/
theorem trigger_due_some {tz : Tz} {st : DailyTrigger} {now t' : Int}
    (h : st.next_seconds ≤ now)
    (hc : checkedAddDays tz st.next_seconds (st.skip_days + 1) = some t') :
    DailyTrigger.trigger tz st now =
      .ok true ⟨t', st.time_of_day, st.skip_days, st.start_day_of_week⟩ := by
  simp [DailyTrigger.trigger, Int.not_lt.mpr h, timestampOpt, hc]

/-- At or after the stored threshold, a failed calendar addition makes
`trigger` panic. -/
theorem trigger_due_none {tz : Tz} {st : DailyTrigger} {now : Int}
    (h : st.next_seconds ≤ now)
    (hc : checkedAddDays tz st.next_seconds (st.skip_days + 1) = none) :
    DailyTrigger.trigger tz st now = .panicked := by
  simp [DailyTrigger.trigger, Int.not_lt.mpr h, timestampOpt, hc]

/-- Inversion of a `trigger` call that returned `Ok`: either the fast path
(`false`, same state) or a successful advance (`true`, threshold moved by
exactly `skip_days + 1` calendar days in local civil time, configuration
unchanged). -/
theorem trigger_ok_inv {tz : Tz} {st st' : DailyTrigger} {now : Int} {b : Bool}
    (h : DailyTrigger.trigger tz st now = .ok b st') :
    st'.time_of_day = st.time_of_day ∧
    st'.skip_days = st.skip_days ∧
    st'.start_day_of_week = st.start_day_of_week ∧
    ((b = false ∧ now < st.next_seconds ∧ st' = st) ∨
     (b = true ∧ st.next_seconds ≤ now ∧
       toLocal tz st'.next_seconds =
         toLocal tz st.next_seconds + ((st.skip_days : Int) + 1) * 86400)) := by
  by_cases hlt : now < st.next_seconds
  · rw [trigger_not_due hlt] at h
    rcases h with ⟨rfl, rfl⟩
    exact ⟨rfl, rfl, rfl, Or.inl ⟨rfl, hlt, rfl⟩⟩
  · cases hc : checkedAddDays tz st.next_seconds (st.skip_days + 1) with
    | none =>
        rw [trigger_due_none (Int.not_lt.mp hlt) hc] at h
        exact absurd h (by simp)
    | some t' =>
        rw [trigger_due_some (Int.not_lt.mp hlt) hc] at h
        rcases h with ⟨rfl, rfl⟩
        have := checkedAddDays_some hc
        refine ⟨rfl, rfl, rfl, Or.inr ⟨rfl, Int.not_lt.mp hlt, ?_⟩⟩
        simpa [Nat.cast_add] using this

/-- When the absolute difference of the two UTC offsets is below one day, two
instants whose local civil times differ by `Δ` are at most a day apart from
being `Δ` seconds apart. -/
theorem toLocal_shift_bounds {tz : Tz} {t t' Δ : Int}
    (hb₁ : tz.dstOffset - tz.stdOffset < 86400)
    (hb₂ : tz.stdOffset - tz.dstOffset < 86400)
    (h : toLocal tz t' = toLocal tz t + Δ) :
    t + Δ - 86400 < t' ∧ t' < t + Δ + 86400 := by
  simp only [toLocal, Tz.offsetAt] at h
  cases h₁ : tz.isDst t <;> cases h₂ : tz.isDst t' <;>
    rw [h₁, h₂] at h <;> simp at h <;> omega

/-! ## Claims C2, C4, C5, C6 -/

/-- Claim C6: for every state and every `now` strictly before the stored
threshold, `trigger` returns `Ok(false)` and leaves the whole state, in
particular `next_seconds`, unchanged; repeated calls before the threshold
all return `Ok(false)` and never mutate the state. -/
theorem c6_frame_before_due :
    (∀ (tz : Tz) (st : DailyTrigger) (now : Int), now < st.next_seconds →
      DailyTrigger.trigger tz st now = .ok false st) ∧
    (∀ (tz : Tz) (st : DailyTrigger) (nows : List Int),
      (∀ n ∈ nows, n < st.next_seconds) →
      runTrigger tz st nows = some (st, nows.map fun _ => false)) := by
  refine ⟨fun tz st now h => trigger_not_due h, fun tz st nows h => ?_⟩
  induction nows with
  | nil => rfl
  | cons n rest ih =>
      simp only [runTrigger, trigger_not_due (h n (by simp))]
      simp [ih fun x hx => h x (by simp [hx])]

/-- Witness for C6 at a concrete state and trace. -/
theorem c6_frame_before_due_witness :
    (∀ n ∈ [(1 : Int), 2], n < (100 : Int)) ∧
    runTrigger (tzFixed 0) ⟨100, 0, 0, 0⟩ [1, 2] =
      some (⟨100, 0, 0, 0⟩, [false, false]) := by
  refine ⟨by decide, ?_⟩
  simpa using c6_frame_before_due.2 (tzFixed 0) ⟨100, 0, 0, 0⟩ [1, 2] (by decide)

/-- Counterexample to claim C2 as stated: a due trigger (`now` at the stored
threshold) whose calendar addition lands in the spring-forward gap of
`tzSpring`; `trigger` panics instead of returning `Ok(true)` with an advanced
threshold. -/
theorem c2_counterexample :
    (⟨0, 0, 0, 0⟩ : DailyTrigger).next_seconds ≤ 0 ∧
    DailyTrigger.trigger tzSpring ⟨0, 0, 0, 0⟩ 0 = .panicked := by
  decide

/-- Claim C2 as amended: at or after the threshold, when adding
`skip_days + 1` calendar days to the threshold's local civil time resolves
to a unique instant, `trigger` returns `Ok(true)` and replaces the stored
threshold with that instant — the epoch value of the old threshold's local
civil date/time plus exactly `skip_days + 1` calendar days at the same local
time-of-day; the concrete conjunct shows the increment in epoch seconds is
not the fixed `86400 * (skip_days + 1)` across a DST transition. -/
theorem c2_evaluation_advance :
    (∀ (tz : Tz) (st : DailyTrigger) (now t' : Int),
      st.next_seconds ≤ now →
      checkedAddDays tz st.next_seconds (st.skip_days + 1) = some t' →
      DailyTrigger.trigger tz st now =
        .ok true ⟨t', st.time_of_day, st.skip_days, st.start_day_of_week⟩ ∧
      toLocal tz t' =
        toLocal tz st.next_seconds + ((st.skip_days : Int) + 1) * 86400 ∧
      secondsOfDay (toLocal tz t') = secondsOfDay (toLocal tz st.next_seconds) ∧
      civilDay (toLocal tz t') =
        civilDay (toLocal tz st.next_seconds) + ((st.skip_days : Int) + 1)) ∧
    (DailyTrigger.trigger tzSpring ⟨36000, 36000, 0, 0⟩ 36000 =
        .ok true ⟨118800, 36000, 0, 0⟩ ∧
      (118800 : Int) - 36000 ≠ 1 * 86400) := by
  constructor
  · intro tz st now t' h hc
    have hshift := checkedAddDays_some hc
    rw [Nat.cast_add, Nat.cast_one] at hshift
    refine ⟨trigger_due_some h hc, hshift, ?_, ?_⟩
    · rw [hshift]
      exact (civilDay_shift _ _).2
    · rw [hshift]
      exact (civilDay_shift _ _).1
  · decide

/-- Witness for the amended C2 at a concrete state. -/
theorem c2_evaluation_advance_witness :
    (0 : Int) ≤ 0 ∧
    checkedAddDays (tzFixed 0) 0 1 = some 86400 ∧
    DailyTrigger.trigger (tzFixed 0) ⟨0, 0, 0, 0⟩ 0 = .ok true ⟨86400, 0, 0, 0⟩ := by
  refine ⟨by decide, by decide, ?_⟩
  exact (c2_evaluation_advance.1 (tzFixed 0) ⟨0, 0, 0, 0⟩ 0 86400
    (by decide) (by decide)).1

/-- Claim C4, evaluated at its failing input: `time_of_day = 2360` normalizes
to 24 hours 0 minutes, the `NaiveTime` construction fails, and construction
panics (modelled as `none`) instead of succeeding for every `u32` triple. -/
theorem c4_construction_panics :
    fromHmsOpt (2360 / 100 % 24 + 2360 % 100 / 60) (2360 % 100 % 60) 0 = none ∧
    DailyTrigger.new (tzFixed 0) 0 2360 0 0 = none := by
  decide

/-- Counterexample to claim C5 as stated: on a fatal calendar fault (the
advanced threshold falls into a spring-forward gap) `trigger` panics; it
does not return the `Err` branch of its `Result` (the source never
constructs `Err` at all). -/
theorem c5_counterexample :
    (⟨1800, 1800, 0, 0⟩ : DailyTrigger).next_seconds ≤ 1800 ∧
    checkedAddDays tzSpring 1800 1 = none ∧
    DailyTrigger.trigger tzSpring ⟨1800, 1800, 0, 0⟩ 1800 = .panicked := by
  decide

/-- Claim C5 as amended: routine not-yet-due outcomes never produce an error
(`Ok(false)` with no state change), and when the calendar arithmetic cannot
produce a valid result the evaluation panics (aborts the process) rather
than returning an error value. -/
theorem c5_panic_behavior :
    ∀ (tz : Tz) (st : DailyTrigger) (now : Int),
      (now < st.next_seconds → DailyTrigger.trigger tz st now = .ok false st) ∧
      (st.next_seconds ≤ now →
        checkedAddDays tz st.next_seconds (st.skip_days + 1) = none →
        DailyTrigger.trigger tz st now = .panicked) :=
  fun _ _ _ => ⟨fun h => trigger_not_due h, fun h hc => trigger_due_none h hc⟩

/-- Witness for the amended C5 at a concrete faulting state. -/
theorem c5_panic_behavior_witness :
    (900 : Int) ≤ 900 ∧
    checkedAddDays tzSpring 900 1 = none ∧
    DailyTrigger.trigger tzSpring ⟨900, 900, 0, 0⟩ 900 = .panicked := by
  refine ⟨by decide, by decide, ?_⟩
  exact (c5_panic_behavior tzSpring ⟨900, 900, 0, 0⟩ 900).2 (by decide) (by decide)

/-! ## Claim C3: the first-trigger computation -/

/-- Modelled from claim C3's wording: the local civil day on which the first
trigger falls — today when today is a valid cycle day (`days_into_cycle = 0`)
and the current local time-of-day is before the configured time, otherwise
`(skip_days + 1) - days_into_cycle` days ahead. -/
def specTriggerDay (tz : Tz) (timeOfDay skipDays startDayOfWeek : Nat)
    (now : Int) : Int :=
  let nowLocal := toLocal tz now
  let d := daysIntoCycleOf (weekdayNat nowLocal) startDayOfWeek skipDays
  if d = 0 ∧ secondsOfDay nowLocal < (timeOfDay : Int) then civilDay nowLocal
  else civilDay nowLocal + ((skipDays + 1 - d : Nat) : Int)

/-- Modelled from claim C3's wording: the initial threshold is the trigger
date at the configured hour and minute with second 0, converted to epoch
seconds. -/
def firstTriggerSpec (tz : Tz) (timeOfDay skipDays startDayOfWeek : Nat)
    (now : Int) : Option Int :=
  (fromLocal tz (specTriggerDay tz timeOfDay skipDays startDayOfWeek now * 86400 +
    ((timeOfDay / 3600 : Nat) : Int) * 3600 +
    ((timeOfDay % 3600 / 60 : Nat) : Int) * 60)).asSingle

/-- A successful `first_trigger_point` resolves the civil time built from the
claim's trigger day, the configured hour and minute, and second 0, to the
returned instant. -/
theorem firstTriggerPoint_single {tz : Tz} {tod skip sdw : Nat} {now v : Int}
    (h : firstTriggerPoint tz tod skip sdw now = some v) :
    fromLocal tz (specTriggerDay tz tod skip sdw now * 86400 +
      ((tod / 3600 : Nat) : Int) * 3600 +
      ((tod % 3600 / 60 : Nat) : Int) * 60) = .single v := by
  simp only [firstTriggerPoint, Option.bind_eq_some] at h
  obtain ⟨t₃, ⟨t₂, ⟨t₁, ht₁, ht₂⟩, ht₃⟩, hv⟩ := h
  obtain ⟨hh23, hh⟩ := withHour_eq_some ht₂
  obtain ⟨hm59, hm⟩ := withMinute_eq_some ht₃
  obtain ⟨hs59, hs⟩ := withSecond_eq_some hv
  rw [fromLocal_single hm, fromLocal_single hh, Nat.cast_zero, setChain] at hs
  have hday : specTriggerDay tz tod skip sdw now = civilDay (toLocal tz t₁) := by
    unfold specTriggerDay
    split_ifs at ht₁ with hcond
    · obtain rfl : now = t₁ := by injection ht₁
      rw [if_pos ⟨hcond.2, hcond.1⟩]
    · rw [if_neg fun hc => hcond ⟨hc.2, hc.1⟩, checkedAddDays_some ht₁]
      exact ((civilDay_shift (toLocal tz now) _).1).symm
  rw [hday]
  exact hs

/-- Claim C3: whenever `first_trigger_point` produces a value, that value is
the one described by the claim (the cycle-day selection followed by setting
the configured hour and minute, second 0, and converting to epoch seconds);
and the concrete instance: construction with `time_of_day = 0000`,
`skip_days = 0`, `start_day_of_week = 0` at local time 2024-01-01T10:00
(epoch 1704103200 in a zero-offset zone) stores the epoch value of
2024-01-02T00:00 local (1704153600). -/
theorem c3_first_trigger_computation :
    (∀ (tz : Tz) (tod skip sdw : Nat) (now v : Int),
      firstTriggerPoint tz tod skip sdw now = some v →
      firstTriggerSpec tz tod skip sdw now = some v) ∧
    DailyTrigger.new (tzFixed 0) 1704103200 0 0 0 =
      some ⟨1704153600, 0, 0, 0⟩ := by
  constructor
  · intro tz tod skip sdw now v h
    unfold firstTriggerSpec
    rw [firstTriggerPoint_single h]
    rfl
  · decide

/-- Witness for C3's conditional part at a concrete construction. -/
theorem c3_first_trigger_computation_witness :
    firstTriggerPoint (tzFixed 0) 0 0 0 1704103200 = some 1704153600 ∧
    firstTriggerSpec (tzFixed 0) 0 0 0 1704103200 = some 1704153600 := by
  refine ⟨by decide, ?_⟩
  exact c3_first_trigger_computation.1 (tzFixed 0) 0 0 0 1704103200 1704153600
    (by decide)

/-! ## Claim C9: catch-up behaviour -/

/-- Claim C9: when `now` is at least two full periods past the stored
threshold, `trigger` returns `Ok(true)` but advances the threshold by only
one period (the stored value depends only on the old threshold, not on
`now`), so the new threshold is still in the past and the immediately
following call also returns `Ok(true)`. -/
theorem c9_catchup :
    ∀ (tz : Tz) (st : DailyTrigger) (now t₁ t₂ : Int),
      tz.dstOffset - tz.stdOffset < 86400 →
      tz.stdOffset - tz.dstOffset < 86400 →
      st.next_seconds + 2 * ((st.skip_days : Int) + 1) * 86400 ≤ now →
      checkedAddDays tz st.next_seconds (st.skip_days + 1) = some t₁ →
      checkedAddDays tz t₁ (st.skip_days + 1) = some t₂ →
      DailyTrigger.trigger tz st now =
        .ok true ⟨t₁, st.time_of_day, st.skip_days, st.start_day_of_week⟩ ∧
      t₁ ≤ now ∧
      DailyTrigger.trigger tz
          ⟨t₁, st.time_of_day, st.skip_days, st.start_day_of_week⟩ now =
        .ok true ⟨t₂, st.time_of_day, st.skip_days, st.start_day_of_week⟩ := by
  intro tz st now t₁ t₂ hb₁ hb₂ h2 hc₁ hc₂
  have hq : (0 : Int) ≤ (st.skip_days : Int) := Int.natCast_nonneg _
  have hle : st.next_seconds ≤ now := by nlinarith
  have hshift₁ := checkedAddDays_some hc₁
  rw [Nat.cast_add, Nat.cast_one] at hshift₁
  have hbound := toLocal_shift_bounds hb₁ hb₂ hshift₁
  have ht₁now : t₁ ≤ now := by nlinarith [hbound.2]
  exact ⟨trigger_due_some hle hc₁, ht₁now, trigger_due_some ht₁now hc₂⟩

/-- Witness for C9 at a concrete state two periods in the past. -/
theorem c9_catchup_witness :
    checkedAddDays (tzFixed 0) 0 1 = some 86400 ∧
    checkedAddDays (tzFixed 0) 86400 1 = some 172800 ∧
    DailyTrigger.trigger (tzFixed 0) ⟨0, 0, 0, 0⟩ 172800 =
      .ok true ⟨86400, 0, 0, 0⟩ ∧
    DailyTrigger.trigger (tzFixed 0) ⟨86400, 0, 0, 0⟩ 172800 =
      .ok true ⟨172800, 0, 0, 0⟩ := by
  have h := c9_catchup (tzFixed 0) ⟨0, 0, 0, 0⟩ 172800 86400 172800
    (by decide) (by decide) (by decide) (by decide) (by decide)
  exact ⟨by decide, by decide, h.1, h.2.2⟩

/-! ## Claim C7: schedule invariants across construction and evaluation -/

/-- Invariants carried along any panic-free run of `trigger` calls: the
threshold never decreases (given realistically-bounded offsets), the
configuration is unchanged, the local time-of-day of the threshold is
unchanged, and the threshold's civil day advances by whole periods. -/
theorem runTrigger_inv {tz : Tz}
    (hb₁ : tz.dstOffset - tz.stdOffset < 86400)
    (hb₂ : tz.stdOffset - tz.dstOffset < 86400) :
    ∀ (nows : List Int) (st st' : DailyTrigger) (outs : List Bool),
      runTrigger tz st nows = some (st', outs) →
      st.next_seconds ≤ st'.next_seconds ∧
      st'.time_of_day = st.time_of_day ∧
      st'.skip_days = st.skip_days ∧
      st'.start_day_of_week = st.start_day_of_week ∧
      secondsOfDay (toLocal tz st'.next_seconds) =
        secondsOfDay (toLocal tz st.next_seconds) ∧
      ∃ k : Nat, civilDay (toLocal tz st'.next_seconds) =
        civilDay (toLocal tz st.next_seconds) + (k : Int) * ((st.skip_days : Int) + 1) := by
  intro nows
  induction nows with
  | nil =>
      intro st st' outs h
      simp only [runTrigger, Option.some.injEq] at h
      obtain ⟨rfl, rfl⟩ : st = st' ∧ [] = outs := Prod.mk.injEq .. ▸ h
      exact ⟨le_refl _, rfl, rfl, rfl, rfl, 0, by simp⟩
  | cons n rest ih =>
      intro st st' outs h
      simp only [runTrigger] at h
      cases ht : DailyTrigger.trigger tz st n with
      | panicked => rw [ht] at h; exact absurd h (by simp)
      | ok b st₁ =>
          rw [ht] at h
          simp only [Option.map_eq_some'] at h
          obtain ⟨p, hp, hpe⟩ := h
          obtain ⟨rfl, rfl⟩ : st' = p.1 ∧ outs = b :: p.2 := by
            exact ⟨congrArg Prod.fst hpe.symm, congrArg Prod.snd hpe.symm⟩
          obtain ⟨hrest₁, hrest₂, hrest₃, hrest₄, hrest₅, k, hrest₆⟩ :=
            ih st₁ p.1 p.2 hp
          obtain ⟨hf₁, hf₂, hf₃, hcase⟩ := trigger_ok_inv ht
          rcases hcase with ⟨_, _, rfl⟩ | ⟨_, _, hshift⟩
          · exact ⟨hrest₁, hrest₂, hrest₃, hrest₄, hrest₅, k, by rw [hrest₆]⟩
          · have hstep := toLocal_shift_bounds hb₁ hb₂ hshift
            have hday := civilDay_shift (toLocal tz st.next_seconds)
              ((st.skip_days : Int) + 1)
            refine ⟨?_, hrest₂.trans hf₁, hrest₃.trans hf₂, hrest₄.trans hf₃, ?_, ?_⟩
            · have : st.next_seconds ≤ st₁.next_seconds := by
                have hq : (0 : Int) ≤ (st.skip_days : Int) := Int.natCast_nonneg _
                nlinarith [hstep.1]
              exact this.trans hrest₁
            · rw [hrest₅, hshift, hday.2]
            · refine ⟨k + 1, ?_⟩
              rw [hrest₆, hshift, hday.1, hf₂]
              push_cast
              ring

/-- Inversion of a successful construction: the stored configuration fields,
the decomposition of the stored (normalized) `time_of_day`, and the civil
day and time-of-day of the stored first threshold. -/
theorem new_inv {tz : Tz} {now : Int} {ti sk sd : Nat} {st : DailyTrigger}
    (h : DailyTrigger.new tz now ti sk sd = some st) :
    st.skip_days = sk ∧
    st.start_day_of_week = sd % 7 ∧
    st.time_of_day / 3600 ≤ 23 ∧
    st.time_of_day / 3600 * 3600 + st.time_of_day % 3600 / 60 * 60 =
      st.time_of_day ∧
    civilDay (toLocal tz st.next_seconds) =
      specTriggerDay tz st.time_of_day sk (sd % 7) now ∧
    secondsOfDay (toLocal tz st.next_seconds) = (st.time_of_day : Int) := by
  simp only [DailyTrigger.new, Option.bind_eq_some, Option.map_eq_some'] at h
  obtain ⟨tod, htod, v, hftp, hst⟩ := h
  simp only [fromHmsOpt] at htod
  split_ifs at htod with hrange
  obtain ⟨hh, hm, -⟩ := hrange
  obtain rfl : _ = tod := by injection htod
  subst hst
  dsimp only
  have he := fromLocal_single (firstTriggerPoint_single hftp)
  have hh₀ : ((ti / 100 % 24 + ti % 100 / 60) * 3600 + ti % 100 % 60 * 60 + 0)
      / 3600 ≤ 23 := by omega
  have hb := civilDay_build
    (specTriggerDay tz ((ti / 100 % 24 + ti % 100 / 60) * 3600 + ti % 100 % 60 * 60 + 0)
      sk (sd % 7) now)
    (((ti / 100 % 24 + ti % 100 / 60) * 3600 + ti % 100 % 60 * 60 + 0) / 3600 : Nat)
    (((ti / 100 % 24 + ti % 100 / 60) * 3600 + ti % 100 % 60 * 60 + 0) % 3600 / 60 : Nat)
    (by positivity) (by exact_mod_cast hh₀) (by positivity)
    (by exact_mod_cast Nat.le_of_lt_succ (Nat.lt_succ_of_le (Nat.div_le_div_right
      (Nat.le_of_lt_succ (Nat.mod_lt _ (by norm_num))))))
  refine ⟨rfl, rfl, by omega, by omega, ?_, ?_⟩
  · rw [he]
    exact hb.1
  · rw [he, hb.2]
    push_cast
    omega

/-- Modelled from claim C7's wording: the weekday offset of the threshold's
local day from `start_day_of_week` (adding 7 first when the weekday index is
smaller), modulo `skip_days + 1` — the claim calls a day with offset 0 a
valid cycle day. -/
def weekdayCycleOffset (tz : Tz) (st : DailyTrigger) : Nat :=
  daysIntoCycleOf (weekdayNat (toLocal tz st.next_seconds))
    st.start_day_of_week st.skip_days

/-- Counterexample to claim C7 as stated: with `skip_days = 2` and
`start_day_of_week = 0` (Sunday anchor), constructing at Saturday
2024-01-06T10:00 local (a valid cycle day, after the configured time 00:00)
stores a threshold on Tuesday 2024-01-09, whose weekday offset from the
anchor modulo the period is 2, not 0 — the claim's weekday-based
characterization of valid cycle days does not hold for thresholds the code
itself schedules. -/
theorem c7_counterexample :
    DailyTrigger.new (tzFixed 0) 1704535200 0 2 0 =
      some ⟨1704758400, 0, 2, 0⟩ ∧
    weekdayCycleOffset (tzFixed 0) ⟨1704758400, 0, 2, 0⟩ = 2 := by
  decide

/-- Claim C7 as amended: across construction and any panic-free sequence of
`trigger` calls (in a timezone whose two offsets differ by less than a day),
`next_seconds` is monotonically non-decreasing and its local civil time
always equals the stored normalized `time_of_day` (with second 0, which the
decomposition equations of construction guarantee); each advance moves the
threshold by exactly one period of `skip_days + 1` calendar days, so every
value it ever holds lies a whole number of periods after the first trigger
point (the claim's weekday-offset-modulo-period characterization is dropped:
it is not preserved unless the period divides evenly into weeks). -/
theorem c7_schedule_invariants :
    (∀ (tz : Tz) (now : Int) (ti sk sd : Nat) (st : DailyTrigger),
      DailyTrigger.new tz now ti sk sd = some st →
      secondsOfDay (toLocal tz st.next_seconds) = (st.time_of_day : Int)) ∧
    (∀ (tz : Tz) (st st' : DailyTrigger) (now : Int) (b : Bool),
      tz.dstOffset - tz.stdOffset < 86400 →
      tz.stdOffset - tz.dstOffset < 86400 →
      DailyTrigger.trigger tz st now = .ok b st' →
      st.next_seconds ≤ st'.next_seconds ∧
      secondsOfDay (toLocal tz st'.next_seconds) =
        secondsOfDay (toLocal tz st.next_seconds) ∧
      (b = true → civilDay (toLocal tz st'.next_seconds) =
        civilDay (toLocal tz st.next_seconds) + ((st.skip_days : Int) + 1))) ∧
    (∀ (tz : Tz) (st st' : DailyTrigger) (nows : List Int) (outs : List Bool),
      tz.dstOffset - tz.stdOffset < 86400 →
      tz.stdOffset - tz.dstOffset < 86400 →
      runTrigger tz st nows = some (st', outs) →
      st.next_seconds ≤ st'.next_seconds ∧
      st'.time_of_day = st.time_of_day ∧
      secondsOfDay (toLocal tz st'.next_seconds) =
        secondsOfDay (toLocal tz st.next_seconds) ∧
      ∃ k : Nat, civilDay (toLocal tz st'.next_seconds) =
        civilDay (toLocal tz st.next_seconds) +
          (k : Int) * ((st.skip_days : Int) + 1)) := by
  refine ⟨fun tz now ti sk sd st h => (new_inv h).2.2.2.2.2, ?_, ?_⟩
  · intro tz st st' now b hb₁ hb₂ ht
    obtain ⟨-, -, -, hcase⟩ := trigger_ok_inv ht
    rcases hcase with ⟨rfl, -, rfl⟩ | ⟨rfl, -, hshift⟩
    · exact ⟨le_refl _, rfl, by simp⟩
    · have hstep := toLocal_shift_bounds hb₁ hb₂ hshift
      have hday := civilDay_shift (toLocal tz st.next_seconds)
        ((st.skip_days : Int) + 1)
      have hq : (0 : Int) ≤ (st.skip_days : Int) := Int.natCast_nonneg _
      refine ⟨by nlinarith [hstep.1], ?_, fun _ => ?_⟩
      · rw [hshift, hday.2]
      · rw [hshift, hday.1]
  · intro tz st st' nows outs hb₁ hb₂ h
    obtain ⟨h₁, h₂, -, -, h₅, h₆⟩ := runTrigger_inv hb₁ hb₂ nows st st' outs h
    exact ⟨h₁, h₂, h₅, h₆⟩

/-- Witness for the amended C7 on a concrete panic-free run. -/
theorem c7_schedule_invariants_witness :
    runTrigger (tzFixed 0) ⟨0, 0, 0, 0⟩ [0, 90000] =
      some (⟨172800, 0, 0, 0⟩, [true, true]) ∧
    (⟨0, 0, 0, 0⟩ : DailyTrigger).next_seconds ≤
      (⟨172800, 0, 0, 0⟩ : DailyTrigger).next_seconds := by
  refine ⟨by decide, ?_⟩
  exact (c7_schedule_invariants.2.2 (tzFixed 0) ⟨0, 0, 0, 0⟩ ⟨172800, 0, 0, 0⟩
    [0, 90000] [true, true] (by decide) (by decide) (by decide)).1

/-! ## Claim C8: the weekly Wednesday cycle -/

/-- With `skip_days = 6` and anchor Wednesday (3), the claim's trigger day
always falls on a Wednesday, whichever weekday construction happens on. -/
theorem specTriggerDay_wednesday (tz : Tz) (tod : Nat) (now : Int) :
    ((specTriggerDay tz tod 6 3 now + 4) % 7).toNat = 3 := by
  simp only [specTriggerDay, daysIntoCycleOf]
  have hw : weekdayNat (toLocal tz now) =
      ((civilDay (toLocal tz now) + 4) % 7).toNat := rfl
  set w := weekdayNat (toLocal tz now) with hwdef
  set c := civilDay (toLocal tz now) with hcdef
  split_ifs <;> omega

/-- Claim C8: a `DailyTrigger` built with `start_day_of_week = 3` and
`skip_days = 6` stores only Wednesday thresholds: the first threshold falls
on a Wednesday in local time, every `Ok(true)` advance moves the threshold
by exactly 7 calendar days (hence between consecutive rotations the
scheduled dates are one week apart) and keeps it on a Wednesday, and along
any panic-free run every value held by `next_seconds` stays on a
Wednesday. -/
theorem c8_wednesday_weekly :
    (∀ (tz : Tz) (now : Int) (ti : Nat) (st : DailyTrigger),
      DailyTrigger.new tz now ti 6 3 = some st →
      weekdayNat (toLocal tz st.next_seconds) = 3) ∧
    (∀ (tz : Tz) (st st' : DailyTrigger) (now : Int),
      st.skip_days = 6 →
      DailyTrigger.trigger tz st now = .ok true st' →
      civilDay (toLocal tz st'.next_seconds) =
        civilDay (toLocal tz st.next_seconds) + 7 ∧
      (weekdayNat (toLocal tz st.next_seconds) = 3 →
        weekdayNat (toLocal tz st'.next_seconds) = 3)) ∧
    (∀ (tz : Tz) (st st' : DailyTrigger) (nows : List Int) (outs : List Bool),
      st.skip_days = 6 →
      weekdayNat (toLocal tz st.next_seconds) = 3 →
      runTrigger tz st nows = some (st', outs) →
      weekdayNat (toLocal tz st'.next_seconds) = 3) := by
  have hstep : ∀ (tz : Tz) (st st' : DailyTrigger) (now : Int),
      st.skip_days = 6 →
      DailyTrigger.trigger tz st now = .ok true st' →
      civilDay (toLocal tz st'.next_seconds) =
        civilDay (toLocal tz st.next_seconds) + 7 := by
    intro tz st st' now hsk ht
    obtain ⟨-, -, -, hcase⟩ := trigger_ok_inv ht
    rcases hcase with ⟨hb, -, -⟩ | ⟨-, -, hshift⟩
    · exact absurd hb (by simp)
    · rw [hshift, (civilDay_shift _ _).1, hsk]
      norm_num
  refine ⟨?_, ?_, ?_⟩
  · intro tz now ti st h
    obtain ⟨-, -, hh23, -, hday, -⟩ := new_inv h
    have : (3 % 7 : Nat) = 3 := by norm_num
    rw [this] at hday
    show ((civilDay (toLocal tz st.next_seconds) + 4) % 7).toNat = 3
    rw [hday]
    exact specTriggerDay_wednesday tz st.time_of_day now
  · intro tz st st' now hsk ht
    refine ⟨hstep tz st st' now hsk ht, fun hw => ?_⟩
    show ((civilDay (toLocal tz st'.next_seconds) + 4) % 7).toNat = 3
    have hw' : ((civilDay (toLocal tz st.next_seconds) + 4) % 7).toNat = 3 := hw
    rw [hstep tz st st' now hsk ht]
    omega
  · intro tz st st' nows outs hsk hw h
    induction nows generalizing st outs with
    | nil =>
        simp only [runTrigger, Option.some.injEq, Prod.mk.injEq] at h
        obtain ⟨rfl, -⟩ := h
        exact hw
    | cons n rest ih =>
        simp only [runTrigger] at h
        cases ht : DailyTrigger.trigger tz st n with
        | panicked => rw [ht] at h; exact absurd h (by simp)
        | ok b st₁ =>
            rw [ht] at h
            simp only [Option.map_eq_some'] at h
            obtain ⟨⟨st₂, outs₂⟩, hp, hpe⟩ := h
            injection hpe with hpe₁ hpe₂
            subst hpe₁
            obtain ⟨-, hf₂, -, hcase⟩ := trigger_ok_inv ht
            have hsk₁ : st₁.skip_days = 6 := hf₂.trans hsk
            have hw₁ : weekdayNat (toLocal tz st₁.next_seconds) = 3 := by
              rcases hcase with ⟨-, -, rfl⟩ | ⟨-, -, hshift⟩
              · exact hw
              · have hw' : ((civilDay (toLocal tz st.next_seconds) + 4) % 7).toNat
                    = 3 := hw
                show ((civilDay (toLocal tz st₁.next_seconds) + 4) % 7).toNat = 3
                rw [hshift, (civilDay_shift _ _).1, hsk]
                push_cast
                omega
            exact ih st₁ outs₂ hsk₁ hw₁ hp

/-- Witness for C8 at a concrete construction (Thursday 1970-01-01, zero
offset): the first threshold is the following Wednesday. -/
theorem c8_wednesday_weekly_witness :
    DailyTrigger.new (tzFixed 0) 0 0 6 3 = some ⟨518400, 0, 6, 3⟩ ∧
    weekdayNat (toLocal (tzFixed 0) (518400 : Int)) = 3 := by
  refine ⟨by decide, ?_⟩
  exact c8_wednesday_weekly.1 (tzFixed 0) 0 0 ⟨518400, 0, 6, 3⟩ (by decide)

/-! ## Claim C10: concurrent evaluation

Sequential consistency makes every interleaving of the atomic accesses a
total order, so concurrent execution of `DailyTrigger::trigger` by two
threads is modelled as an interleaving of per-thread atomic steps: the body
performs exactly two shared-memory accesses, the SeqCst load of
`next_seconds` and (when due) the SeqCst store of the advanced value; all
computation in between uses the loaded value.
-/

/-- Phase of one thread executing `DailyTrigger::trigger`: before its load,
after its load (holding the loaded value), returned with a boolean, or
panicked. -/
inductive ThreadPhase
  | ready
  | loaded (v : Int)
  | finished (rotate : Bool)
  | failed
deriving DecidableEq, Repr

/-- One atomic step of a thread at instant `now` with period configuration
`skipDays`, given the current cell value: from `ready`, the SeqCst load;
from `loaded v`, either the early `Ok(false)` return (no store) or the
calendar advance computed from `v` followed by the SeqCst store (the
reconstruction of `v`'s local datetime is unique, as in
`DailyTrigger.trigger`). A finished thread does not step. -/
def stepThread (tz : Tz) (skipDays : Nat) (now : Int) (cell : Int) :
    ThreadPhase → ThreadPhase × Int
  | .ready => (.loaded cell, cell)
  | .loaded v =>
      if now < v then (.finished false, cell)
      else
        match checkedAddDays tz v (skipDays + 1) with
        | some n => (.finished true, n)
        | none => (.failed, cell)
  | p => (p, cell)

/-- Shared cell plus the phases of two threads. -/
structure ConcState where
  cell : Int
  th0 : ThreadPhase
  th1 : ThreadPhase
deriving DecidableEq, Repr

/-- Runs a schedule (`false` steps thread 0, `true` steps thread 1) of
atomic steps over the shared cell. -/
def runSched (tz : Tz) (skipDays : Nat) (now : Int) :
    ConcState → List Bool → ConcState
  | s, [] => s
  | s, which :: rest =>
      let s' :=
        if which then
          let r := stepThread tz skipDays now s.cell s.th1
          ⟨r.2, s.th0, r.1⟩
        else
          let r := stepThread tz skipDays now s.cell s.th0
          ⟨r.2, r.1, s.th1⟩
      runSched tz skipDays now s' rest

/-- Counterexample to claim C10 as stated: under the interleaving
load₀, load₁, store₀, store₁ (a valid sequentially consistent total order),
both threads observe the same due threshold 0 at `now = 0` and both finish
with `true` — both are told to rotate for the same period — while the cell
advances by only one period. SeqCst load/store without a read-modify-write
does not prevent this. -/
theorem c10_counterexample :
    runSched (tzFixed 0) 0 0 ⟨0, .ready, .ready⟩ [false, true, false, true] =
      ⟨86400, .finished true, .finished true⟩ ∧
    ((⟨0, .ready, .ready⟩ : ConcState).cell ≤ (0 : Int)) := by
  decide

/-- In a fixed-offset zone every calendar-day addition succeeds and advances
the instant by exactly the day count in seconds. -/
theorem checkedAddDays_tzFixed (off t : Int) (d : Nat) :
    checkedAddDays (tzFixed off) t d = some (t + (d : Int) * 86400) := by
  rcases Nat.eq_zero_or_pos d with rfl | hd
  · simp [checkedAddDays]
  · have hne : d ≠ 0 := Nat.pos_iff_ne_zero.mp hd
    simp only [checkedAddDays, if_neg hne]
    simp only [fromLocal, toLocal, Tz.offsetAt, tzFixed, LocalResult.asSingle]
    norm_num
    omega

/-- Claim C10 as amended: sequential consistency does give every execution a
single total order of the schedule cell's loads and stores, but because the
body performs a separate load and store rather than an atomic
read-modify-write, it does not prevent two due threads from both being told
to rotate for the same period. What every interleaving of two due threads
(here in a fixed-offset zone, where the calendar advance always succeeds)
does guarantee is: both threads finish, at least one is told to rotate, and
the cell ends exactly one or two periods ahead — one period when both
observed the same threshold. -/
theorem c10_seqcst_interleavings :
    ∀ (off next now : Int) (skip : Nat) (a b c d : Bool),
      next ≤ now →
      a.toNat + b.toNat + c.toNat + d.toNat = 2 →
      ∃ r₀ r₁ : Bool,
        (runSched (tzFixed off) skip now ⟨next, .ready, .ready⟩ [a, b, c, d]).th0
          = .finished r₀ ∧
        (runSched (tzFixed off) skip now ⟨next, .ready, .ready⟩ [a, b, c, d]).th1
          = .finished r₁ ∧
        (r₀ = true ∨ r₁ = true) ∧
        ((runSched (tzFixed off) skip now ⟨next, .ready, .ready⟩ [a, b, c, d]).cell
            = next + ((skip + 1 : Nat) : Int) * 86400 ∨
         (runSched (tzFixed off) skip now ⟨next, .ready, .ready⟩ [a, b, c, d]).cell
            = next + 2 * (((skip + 1 : Nat) : Int) * 86400)) := by
  intro off next now skip a b c d hle hcount
  have hn : ¬ now < next := Int.not_lt.mpr hle
  have hadd := checkedAddDays_tzFixed off next (skip + 1)
  have hadd₂ := checkedAddDays_tzFixed off
    (next + ((skip + 1 : Nat) : Int) * 86400) (skip + 1)
  cases a <;> cases b <;> cases c <;> cases d <;>
    simp only [Bool.toNat_true, Bool.toNat_false] at hcount <;>
    first
      | omega
      | (simp only [runSched, stepThread, hn, hadd, hadd₂, if_false, ite_true,
          ite_false, Bool.false_eq_true, Bool.true_eq_false, if_neg, reduceIte]
         first
          | exact ⟨true, true, rfl, rfl, by simp, by simp⟩
          | (split_ifs with hlt2
             · exact ⟨true, false, rfl, rfl, by simp, by simp⟩
             · exact ⟨true, true, rfl, rfl, by simp, Or.inr (by ring)⟩)
          | (split_ifs with hlt2
             · exact ⟨false, true, rfl, rfl, by simp, by simp⟩
             · exact ⟨true, true, rfl, rfl, by simp, Or.inr (by ring)⟩))

/-- Witness for the amended C10 at a concrete interleaving of two due
threads. -/
theorem c10_seqcst_interleavings_witness :
    (0 : Int) ≤ (0 : Int) ∧
    ∃ r₀ r₁ : Bool,
      (runSched (tzFixed 0) 0 0 ⟨0, .ready, .ready⟩
        [false, true, false, true]).th0 = .finished r₀ ∧
      (runSched (tzFixed 0) 0 0 ⟨0, .ready, .ready⟩
        [false, true, false, true]).th1 = .finished r₁ ∧
      (r₀ = true ∨ r₁ = true) ∧
      ((runSched (tzFixed 0) 0 0 ⟨0, .ready, .ready⟩
          [false, true, false, true]).cell = 0 + ((0 + 1 : Nat) : Int) * 86400 ∨
       (runSched (tzFixed 0) 0 0 ⟨0, .ready, .ready⟩
          [false, true, false, true]).cell =
        0 + 2 * (((0 + 1 : Nat) : Int) * 86400)) :=
  ⟨le_refl 0,
    c10_seqcst_interleavings 0 0 0 0 false true false true (by decide) (by decide)⟩
